import Mathlib

/-!
Shallow embedding of the NVFI buffer-stock Bellman solver
(BufferStockModel/nvfi.py) and proofs about it.

Scalars are modelled as rationals. The three external collaborators that
the kernel consumes as capability contracts (the utility evaluator
utility.func, the linear interpolator linear_interp.interp_1d from consav,
and the golden-section optimizer golden_section_search from consav) are
modelled as an abstract bundle of total functions, mirroring the way the
kernel treats them: it only applies them, never inspects them.

Arrays are modelled as lists: a 2-D array is a list of rows, and the
per-period solution arrays v and c are lists indexed by time, then by
permanent-income index ip, then by cash-on-hand index im. In-place writes
of a time slice become functional updates with List.set.
-/

/-- Parameter bundle: the fields of par that nvfi.py reads
(grid_p, grid_m, grid_a, tol, Np, Nm). Utility-specific parameters are
reached through the abstract utility capability, which receives the whole
bundle, exactly as utility.func(c,par) does in the source. -/
structure Par where
  grid_p : List ℚ
  grid_m : List ℚ
  grid_a : List ℚ
  tol : ℚ
  Np : ℕ
  Nm : ℕ

/-- Solution container: sol.v and sol.c are indexed by time t, then by
(ip, im); sol.w is the continuation-value array indexed by (ip, asset
index). -/
structure Sol where
  v : List (List (List ℚ))
  c : List (List (List ℚ))
  w : List (List ℚ)

/-- The external capabilities consumed by nvfi.py: utility.func,
linear_interp.interp_1d, and the golden-section search returned by
golden_section_search.create_optimizer. The optimizer takes the
objective (already closed over its extra arguments), the bracket bounds
and the tolerance. -/
structure Caps where
  utility : ℚ → Par → ℚ
  interp_1d : List ℚ → List ℚ → ℚ → ℚ
  golden : (ℚ → ℚ) → ℚ → ℚ → ℚ → ℚ

/-- The literal 1e-8 used as the lower-bracket clamp in solve_bellman. -/
def eps : ℚ := 1/100000000

/-- obj_bellman from nvfi.py: end-of-period assets a = m - c, continuation
value by interpolation of interp_w on par.grid_a at a, total value
utility plus continuation, returned negated because the optimizer
minimizes. -/
def obj_bellman (ext : Caps) (c m : ℚ) (interp_w : List ℚ) (par : Par) : ℚ :=
  let a := m - c
  let w := ext.interp_1d par.grid_a interp_w a
  let value_of_choice := ext.utility c par + w;
  -value_of_choice

/-- opt_bellman from nvfi.py: the optimizer produced by
create_optimizer(obj_bellman), called as
opt_bellman(c_low, c_high, tol, m, interp_w, par). The extra arguments
(m, interp_w, par) are closed into the objective handed to the search. -/
def opt_bellman (ext : Caps) (c_low c_high tol m : ℚ) (interp_w : List ℚ) (par : Par) : ℚ :=
  ext.golden (fun c => obj_bellman ext c m interp_w par) c_low c_high tol

/-- Body of the double loop of solve_bellman at one grid point (ip, im):
m = par.grid_m[im], bracket c_low = fmin(m/2, 1e-8), c_high = m, the
optimal consumption from the optimizer, and the value obtained by undoing
the sign flip on the objective at that consumption. Returns the pair
(c[ip,im], v[ip,im]). -/
def solve_cell (ext : Caps) (sol : Sol) (par : Par) (ip im : ℕ) : ℚ × ℚ :=
  let m := par.grid_m.getD im 0
  let c_low := min (m/2) eps
  let c_high := m
  let cval := opt_bellman ext c_low c_high par.tol m (sol.w.getD ip []) par
  (cval, -obj_bellman ext cval m (sol.w.getD ip []) par)

/-- The consumption slice c[t] written by solve_bellman: one row per
ip in range(par.Np), one entry per im in range(par.Nm). The binding of
p = par.grid_p[ip] from the source is kept; it is never used. -/
def cSlice (ext : Caps) (sol : Sol) (par : Par) : List (List ℚ) :=
  (List.range par.Np).map fun ip =>
    let p := par.grid_p.getD ip 0
    (List.range par.Nm).map fun im => (solve_cell ext sol par ip im).1

/-- The value slice v[t] written by solve_bellman. -/
def vSlice (ext : Caps) (sol : Sol) (par : Par) : List (List ℚ) :=
  (List.range par.Np).map fun ip =>
    (List.range par.Nm).map fun im => (solve_cell ext sol par ip im).2

/-- solve_bellman from nvfi.py: functionally, the in-place writes to
sol.c[t] and sol.v[t] become List.set of the computed slices; everything
else in sol is returned unchanged. -/
def solve_bellman (ext : Caps) (t : ℕ) (sol : Sol) (par : Par) : Sol :=
  { sol with
    c := sol.c.set t (cSlice ext sol par),
    v := sol.v.set t (vSlice ext sol par) }

/-- Read entry [t][ip][im] of a time-indexed 2-D array. -/
def getCell (xs : List (List (List ℚ))) (t ip im : ℕ) : ℚ :=
  ((xs.getD t []).getD ip []).getD im 0

/-- Concrete capability bundle used to exercise the theorems: linear
utility, interpolation that returns the query point, and a search that
returns the lower bracket bound. -/
def sampleCaps : Caps where
  utility := fun c _ => c
  interp_1d := fun _ _ a => a
  golden := fun _ lo _ _ => lo

/-- Concrete parameter bundle used to exercise the theorems. -/
def samplePar : Par where
  grid_p := [1]
  grid_m := [1, 2]
  grid_a := [0, 1]
  tol := 1/1000
  Np := 1
  Nm := 2

/-- Second concrete parameter bundle, differing from samplePar only in
grid_p. -/
def samplePar2 : Par where
  grid_p := [7]
  grid_m := [1, 2]
  grid_a := [0, 1]
  tol := 1/1000
  Np := 1
  Nm := 2

/-- Concrete solution container used to exercise the theorems. -/
def sampleSol : Sol where
  v := [[[0, 0]]]
  c := [[[0, 0]]]
  w := [[0, 0]]

lemma getD_set_self {α : Type} (l : List α) (i : ℕ) (x : α) (d : α)
    (h : i < l.length) : (l.set i x).getD i d = x := by
  rw [List.getD_eq_getElem _ _ (by simpa using h)]
  exact List.getElem_set_self _

lemma getD_set_ne {α : Type} (l : List α) (i j : ℕ) (x : α) (d : α)
    (h : i ≠ j) : (l.set i x).getD j d = l.getD j d := by
  by_cases hj : j < l.length
  · rw [List.getD_eq_getElem _ _ (by simpa using hj), List.getD_eq_getElem _ _ hj]
    exact List.getElem_set_ne h _
  · rw [List.getD_eq_default _ _ (by simpa using Nat.le_of_not_lt hj),
      List.getD_eq_default _ _ (Nat.le_of_not_lt hj)]

lemma getD_range_map {α : Type} (f : ℕ → α) (d : α) {n i : ℕ} (h : i < n) :
    ((List.range n).map f).getD i d = f i := by
  rw [List.getD_eq_getElem _ _ (by simpa using h)]
  simp

lemma cellC (ext : Caps) (t : ℕ) (sol : Sol) (par : Par) (ip im : ℕ)
    (ht : t < sol.c.length) (hip : ip < par.Np) (him : im < par.Nm) :
    getCell (solve_bellman ext t sol par).c t ip im = (solve_cell ext sol par ip im).1 := by
  show (((sol.c.set t (cSlice ext sol par)).getD t []).getD ip []).getD im 0 = _
  rw [getD_set_self _ _ _ _ ht]
  unfold cSlice
  rw [getD_range_map _ _ hip]
  show ((List.range par.Nm).map fun im => (solve_cell ext sol par ip im).1).getD im 0 = _
  rw [getD_range_map _ _ him]

lemma cellV (ext : Caps) (t : ℕ) (sol : Sol) (par : Par) (ip im : ℕ)
    (ht : t < sol.v.length) (hip : ip < par.Np) (him : im < par.Nm) :
    getCell (solve_bellman ext t sol par).v t ip im = (solve_cell ext sol par ip im).2 := by
  show (((sol.v.set t (vSlice ext sol par)).getD t []).getD ip []).getD im 0 = _
  rw [getD_set_self _ _ _ _ ht]
  unfold vSlice
  rw [getD_range_map _ _ hip]
  rw [getD_range_map _ _ him]

lemma solve_cell_c (ext : Caps) (sol : Sol) (par : Par) (ip im : ℕ) :
    (solve_cell ext sol par ip im).1 =
      opt_bellman ext (min (par.grid_m.getD im 0 / 2) eps) (par.grid_m.getD im 0)
        par.tol (par.grid_m.getD im 0) (sol.w.getD ip []) par := rfl

lemma solve_cell_v (ext : Caps) (sol : Sol) (par : Par) (ip im : ℕ) :
    (solve_cell ext sol par ip im).2 =
      -obj_bellman ext ((solve_cell ext sol par ip im).1) (par.grid_m.getD im 0)
        (sol.w.getD ip []) par := rfl

lemma opt_bellman_def (ext : Caps) (c_low c_high tol m : ℚ) (interp_w : List ℚ) (par : Par) :
    opt_bellman ext c_low c_high tol m interp_w par =
      ext.golden (fun c => obj_bellman ext c m interp_w par) c_low c_high tol := rfl

/-- Claim C1: obj_bellman(c, m, interp_w, par) equals the negation of
utility(c, par) plus the interpolation of interp_w on par.grid_a at
a = m - c. -/
theorem obj_bellman_formula (ext : Caps) (c m : ℚ) (interp_w : List ℚ) (par : Par) :
    obj_bellman ext c m interp_w par =
      -(ext.utility c par + ext.interp_1d par.grid_a interp_w (m - c)) := rfl

/-- Claim C2: after solve_bellman, every stored value entry equals the
negated Bellman objective evaluated at the stored consumption, the stored
cash-on-hand grid point and the continuation row, exactly. -/
theorem solve_bellman_value_roundtrip (ext : Caps) (t : ℕ) (sol : Sol) (par : Par)
    (ip im : ℕ) (htc : t < sol.c.length) (htv : t < sol.v.length)
    (hip : ip < par.Np) (him : im < par.Nm) :
    getCell (solve_bellman ext t sol par).v t ip im =
      -obj_bellman ext (getCell (solve_bellman ext t sol par).c t ip im)
        (par.grid_m.getD im 0) (sol.w.getD ip []) par := by
  rw [cellV ext t sol par ip im htv hip him, cellC ext t sol par ip im htc hip him]
  exact solve_cell_v ext sol par ip im

theorem solve_bellman_value_roundtrip_witness :
    getCell (solve_bellman sampleCaps 0 sampleSol samplePar).v 0 0 0 =
      -obj_bellman sampleCaps (getCell (solve_bellman sampleCaps 0 sampleSol samplePar).c 0 0 0)
        (samplePar.grid_m.getD 0 0) (sampleSol.w.getD 0 []) samplePar :=
  solve_bellman_value_roundtrip sampleCaps 0 sampleSol samplePar 0 0
    (by decide) (by decide) (by decide) (by decide)

/-- Claim C3: every stored consumption entry is the optimizer applied with
lower bound min(m/2, 1e-8), upper bound m and tolerance par.tol, where m is
the cash-on-hand grid point; moreover the clamp constant is 1e-8 and the
lower bound collapses to it whenever m/2 exceeds it. -/
theorem solve_bellman_bracket (ext : Caps) (t : ℕ) (sol : Sol) (par : Par)
    (ip im : ℕ) (htc : t < sol.c.length) (hip : ip < par.Np) (him : im < par.Nm) :
    getCell (solve_bellman ext t sol par).c t ip im =
      opt_bellman ext (min (par.grid_m.getD im 0 / 2) eps) (par.grid_m.getD im 0)
        par.tol (par.grid_m.getD im 0) (sol.w.getD ip []) par
    ∧ eps = 1/100000000
    ∧ (eps < par.grid_m.getD im 0 / 2 → min (par.grid_m.getD im 0 / 2) eps = eps) := by
  refine ⟨?_, rfl, fun h => min_eq_right (le_of_lt h)⟩
  rw [cellC ext t sol par ip im htc hip him]
  exact solve_cell_c ext sol par ip im

theorem solve_bellman_bracket_witness :
    getCell (solve_bellman sampleCaps 0 sampleSol samplePar).c 0 0 0 =
      opt_bellman sampleCaps (min (samplePar.grid_m.getD 0 0 / 2) eps) (samplePar.grid_m.getD 0 0)
        samplePar.tol (samplePar.grid_m.getD 0 0) (sampleSol.w.getD 0 []) samplePar
    ∧ eps = 1/100000000
    ∧ (eps < samplePar.grid_m.getD 0 0 / 2 → min (samplePar.grid_m.getD 0 0 / 2) eps = eps) :=
  solve_bellman_bracket sampleCaps 0 sampleSol samplePar 0 0
    (by decide) (by decide) (by decide)

/-- Claim C4: if every cash-on-hand grid point is strictly positive and the
external search always returns a point inside a well-ordered bracket, then
every stored consumption satisfies 0 < c and c is at most the cash-on-hand
grid point. -/
theorem solve_bellman_consumption_bounds (ext : Caps) (t : ℕ) (sol : Sol) (par : Par)
    (ip im : ℕ)
    (hm : ∀ i, i < par.Nm → 0 < par.grid_m.getD i 0)
    (hopt : ∀ f lo hi tol, lo ≤ hi →
      lo ≤ ext.golden f lo hi tol ∧ ext.golden f lo hi tol ≤ hi)
    (htc : t < sol.c.length) (hip : ip < par.Np) (him : im < par.Nm) :
    0 < getCell (solve_bellman ext t sol par).c t ip im ∧
      getCell (solve_bellman ext t sol par).c t ip im ≤ par.grid_m.getD im 0 := by
  rw [cellC ext t sol par ip im htc hip him, solve_cell_c, opt_bellman_def]
  have hm0 : 0 < par.grid_m.getD im 0 := hm im him
  have hlohi : min (par.grid_m.getD im 0 / 2) eps ≤ par.grid_m.getD im 0 :=
    le_trans (min_le_left _ _) (by linarith)
  have h := hopt (fun c => obj_bellman ext c (par.grid_m.getD im 0) (sol.w.getD ip []) par)
    (min (par.grid_m.getD im 0 / 2) eps) (par.grid_m.getD im 0) par.tol hlohi
  have hlo0 : 0 < min (par.grid_m.getD im 0 / 2) eps :=
    lt_min (by linarith) (by norm_num [eps])
  exact ⟨lt_of_lt_of_le hlo0 h.1, h.2⟩

theorem solve_bellman_consumption_bounds_witness :
    0 < getCell (solve_bellman sampleCaps 0 sampleSol samplePar).c 0 0 0 ∧
      getCell (solve_bellman sampleCaps 0 sampleSol samplePar).c 0 0 0 ≤
        samplePar.grid_m.getD 0 0 :=
  solve_bellman_consumption_bounds sampleCaps 0 sampleSol samplePar 0 0
    (by decide) (fun f lo hi tol h => ⟨le_refl lo, h⟩)
    (by decide) (by decide) (by decide)

/-- Claim C5: solve_bellman leaves the continuation array w untouched and
leaves every time slice of c and of v other than slice t untouched; the
parameter bundle is not written at all, since the call returns a container
built from the input with only the two t slices replaced. -/
theorem solve_bellman_frame (ext : Caps) (t : ℕ) (sol : Sol) (par : Par) :
    (solve_bellman ext t sol par).w = sol.w ∧
    (∀ s, s ≠ t → (solve_bellman ext t sol par).c.getD s [] = sol.c.getD s []) ∧
    (∀ s, s ≠ t → (solve_bellman ext t sol par).v.getD s [] = sol.v.getD s []) := by
  refine ⟨rfl, fun s hs => ?_, fun s hs => ?_⟩
  · exact getD_set_ne sol.c t s _ [] (Ne.symm hs)
  · exact getD_set_ne sol.v t s _ [] (Ne.symm hs)

theorem solve_bellman_frame_witness :
    (solve_bellman sampleCaps 0 sampleSol samplePar).w = sampleSol.w ∧
    (solve_bellman sampleCaps 0 sampleSol samplePar).c.getD 1 [] = sampleSol.c.getD 1 [] ∧
    (solve_bellman sampleCaps 0 sampleSol samplePar).v.getD 1 [] = sampleSol.v.getD 1 [] :=
  ⟨(solve_bellman_frame sampleCaps 0 sampleSol samplePar).1,
   (solve_bellman_frame sampleCaps 0 sampleSol samplePar).2.1 1 (by decide),
   (solve_bellman_frame sampleCaps 0 sampleSol samplePar).2.2 1 (by decide)⟩

/-- Claim C7: solve_bellman is deterministic; with the external
capabilities modelled as functions, two calls on equal inputs return equal
solution containers. -/
theorem solve_bellman_deterministic (ext1 ext2 : Caps) (t1 t2 : ℕ) (sol1 sol2 : Sol)
    (par1 par2 : Par) (he : ext1 = ext2) (ht : t1 = t2) (hs : sol1 = sol2)
    (hp : par1 = par2) :
    solve_bellman ext1 t1 sol1 par1 = solve_bellman ext2 t2 sol2 par2 := by
  rw [he, ht, hs, hp]

theorem solve_bellman_deterministic_witness :
    solve_bellman sampleCaps 0 sampleSol samplePar =
      solve_bellman sampleCaps 0 sampleSol samplePar :=
  solve_bellman_deterministic sampleCaps sampleCaps 0 0 sampleSol sampleSol
    samplePar samplePar rfl rfl rfl rfl

lemma solve_cell_congr (ext : Caps) (sol1 sol2 : Sol) (par1 par2 : Par) (ip im : ℕ)
    (hm : par1.grid_m.getD im 0 = par2.grid_m.getD im 0)
    (htol : par1.tol = par2.tol) (ha : par1.grid_a = par2.grid_a)
    (hw : sol1.w.getD ip [] = sol2.w.getD ip [])
    (hu : ∀ c, ext.utility c par1 = ext.utility c par2) :
    solve_cell ext sol1 par1 ip im = solve_cell ext sol2 par2 ip im := by
  simp only [solve_cell, opt_bellman, obj_bellman, hm, htol, ha, hw, hu]

/-- Claim C6: with the external capabilities total functions, solve_bellman
completes on every input whatsoever: the two written slices always have
full shape Np by Nm, and every cell holds exactly the value computed for
that grid point alone, so a degenerate number produced at one grid point
lands in that one entry and cannot stop any other grid point from being
computed. -/
theorem solve_bellman_total_shape (ext : Caps) (t : ℕ) (sol : Sol) (par : Par)
    (htc : t < sol.c.length) (htv : t < sol.v.length) :
    ((solve_bellman ext t sol par).c.getD t []).length = par.Np ∧
    ((solve_bellman ext t sol par).v.getD t []).length = par.Np ∧
    (∀ ip, ip < par.Np →
      (((solve_bellman ext t sol par).c.getD t []).getD ip []).length = par.Nm ∧
      (((solve_bellman ext t sol par).v.getD t []).getD ip []).length = par.Nm) ∧
    (∀ ip im, ip < par.Np → im < par.Nm →
      getCell (solve_bellman ext t sol par).c t ip im = (solve_cell ext sol par ip im).1 ∧
      getCell (solve_bellman ext t sol par).v t ip im = (solve_cell ext sol par ip im).2) := by
  have hc : (solve_bellman ext t sol par).c.getD t [] = cSlice ext sol par :=
    getD_set_self sol.c t _ [] htc
  have hv : (solve_bellman ext t sol par).v.getD t [] = vSlice ext sol par :=
    getD_set_self sol.v t _ [] htv
  refine ⟨?_, ?_, fun ip hip => ⟨?_, ?_⟩,
    fun ip im hip him => ⟨cellC ext t sol par ip im htc hip him,
      cellV ext t sol par ip im htv hip him⟩⟩
  · rw [hc]; simp [cSlice]
  · rw [hv]; simp [vSlice]
  · rw [hc]; unfold cSlice; rw [getD_range_map _ _ hip]; simp
  · rw [hv]; unfold vSlice; rw [getD_range_map _ _ hip]; simp

theorem solve_bellman_total_shape_witness :
    ((solve_bellman sampleCaps 0 sampleSol samplePar).c.getD 0 []).length = samplePar.Np ∧
    ((solve_bellman sampleCaps 0 sampleSol samplePar).v.getD 0 []).length = samplePar.Np ∧
    (∀ ip, ip < samplePar.Np →
      (((solve_bellman sampleCaps 0 sampleSol samplePar).c.getD 0 []).getD ip []).length = samplePar.Nm ∧
      (((solve_bellman sampleCaps 0 sampleSol samplePar).v.getD 0 []).getD ip []).length = samplePar.Nm) ∧
    (∀ ip im, ip < samplePar.Np → im < samplePar.Nm →
      getCell (solve_bellman sampleCaps 0 sampleSol samplePar).c 0 ip im =
        (solve_cell sampleCaps sampleSol samplePar ip im).1 ∧
      getCell (solve_bellman sampleCaps 0 sampleSol samplePar).v 0 ip im =
        (solve_cell sampleCaps sampleSol samplePar ip im).2) :=
  solve_bellman_total_shape sampleCaps 0 sampleSol samplePar (by decide) (by decide)

/-- Claim C8: each output cell is a function of its own coordinates and the
shared read-only inputs only: two runs that agree on grid_m at im, on the
tolerance, on grid_a, on row ip of w and on the utility parameters write
the same consumption and value at (ip, im), whatever the rest of their
containers hold, so no cell reads another cell and no state is carried
between loop iterations. -/
theorem solve_bellman_cell_local (ext : Caps) (t1 t2 : ℕ) (sol1 sol2 : Sol)
    (par1 par2 : Par) (ip im : ℕ)
    (hm : par1.grid_m.getD im 0 = par2.grid_m.getD im 0)
    (htol : par1.tol = par2.tol) (ha : par1.grid_a = par2.grid_a)
    (hw : sol1.w.getD ip [] = sol2.w.getD ip [])
    (hu : ∀ c, ext.utility c par1 = ext.utility c par2)
    (htc1 : t1 < sol1.c.length) (htv1 : t1 < sol1.v.length)
    (htc2 : t2 < sol2.c.length) (htv2 : t2 < sol2.v.length)
    (hip1 : ip < par1.Np) (him1 : im < par1.Nm)
    (hip2 : ip < par2.Np) (him2 : im < par2.Nm) :
    getCell (solve_bellman ext t1 sol1 par1).c t1 ip im =
      getCell (solve_bellman ext t2 sol2 par2).c t2 ip im ∧
    getCell (solve_bellman ext t1 sol1 par1).v t1 ip im =
      getCell (solve_bellman ext t2 sol2 par2).v t2 ip im := by
  have h := solve_cell_congr ext sol1 sol2 par1 par2 ip im hm htol ha hw hu
  constructor
  · rw [cellC ext t1 sol1 par1 ip im htc1 hip1 him1,
      cellC ext t2 sol2 par2 ip im htc2 hip2 him2, h]
  · rw [cellV ext t1 sol1 par1 ip im htv1 hip1 him1,
      cellV ext t2 sol2 par2 ip im htv2 hip2 him2, h]

theorem solve_bellman_cell_local_witness :
    getCell (solve_bellman sampleCaps 0 sampleSol samplePar).c 0 0 0 =
      getCell (solve_bellman sampleCaps 0 sampleSol samplePar2).c 0 0 0 ∧
    getCell (solve_bellman sampleCaps 0 sampleSol samplePar).v 0 0 0 =
      getCell (solve_bellman sampleCaps 0 sampleSol samplePar2).v 0 0 0 :=
  solve_bellman_cell_local sampleCaps 0 0 sampleSol sampleSol samplePar samplePar2 0 0
    rfl rfl rfl rfl (fun _ => rfl)
    (by decide) (by decide) (by decide) (by decide)
    (by decide) (by decide) (by decide) (by decide)

/-- Claim C10: the outputs do not depend on grid_p: if two parameter
bundles agree on grid_m, grid_a, tol, Np and Nm, and the utility
capability returns the same values under both bundles (per its contract it
reads only its own scalar parameters, which agree), then solve_bellman
writes identical c and v arrays whatever the two grid_p contents are;
permanent income enters only through Np and the rows of w. -/
theorem solve_bellman_gridp_independent (ext : Caps) (t : ℕ) (sol : Sol)
    (par1 par2 : Par)
    (hNp : par1.Np = par2.Np) (hNm : par1.Nm = par2.Nm)
    (hm : par1.grid_m = par2.grid_m) (ha : par1.grid_a = par2.grid_a)
    (htol : par1.tol = par2.tol)
    (hu : ∀ c, ext.utility c par1 = ext.utility c par2) :
    (solve_bellman ext t sol par1).c = (solve_bellman ext t sol par2).c ∧
    (solve_bellman ext t sol par1).v = (solve_bellman ext t sol par2).v := by
  constructor <;>
    simp only [solve_bellman, cSlice, vSlice, solve_cell, opt_bellman, obj_bellman,
      hNp, hNm, hm, ha, htol, hu]

theorem solve_bellman_gridp_independent_witness :
    (solve_bellman sampleCaps 0 sampleSol samplePar).c =
      (solve_bellman sampleCaps 0 sampleSol samplePar2).c ∧
    (solve_bellman sampleCaps 0 sampleSol samplePar).v =
      (solve_bellman sampleCaps 0 sampleSol samplePar2).v :=
  solve_bellman_gridp_independent sampleCaps 0 sampleSol samplePar samplePar2
    rfl rfl rfl rfl rfl (fun _ => rfl)

lemma neg_obj (ext : Caps) (c m : ℚ) (w : List ℚ) (par : Par) :
    -obj_bellman ext c m w par =
      ext.utility c par + ext.interp_1d par.grid_a w (m - c) := by
  simp [obj_bellman]

lemma value_step_mono (ext : Caps) (par : Par) (w : List ℚ) (m1 m2 c1 c2 : ℚ)
    (hu : ∀ x y, x ≤ y → ext.utility x par ≤ ext.utility y par)
    (hW : ∀ x y, x ≤ y → ext.interp_1d par.grid_a w x ≤ ext.interp_1d par.grid_a w y)
    (hm12 : m1 ≤ m2)
    (hlo1 : min (m1/2) eps ≤ c1) (hhi1 : c1 ≤ m1)
    (hlo2 : min (m2/2) eps ≤ c2) (hhi2 : c2 ≤ m2)
    (hmin2 : ∀ x, min (m2/2) eps ≤ x → x ≤ m2 →
      obj_bellman ext c2 m2 w par ≤ obj_bellman ext x m2 w par) :
    -obj_bellman ext c1 m1 w par ≤ -obj_bellman ext c2 m2 w par := by
  rcases le_or_lt (min (m2/2) eps) c1 with hA | hB
  · have h := hmin2 c1 hA (le_trans hhi1 hm12)
    have hW1 := hW (m1 - c1) (m2 - c1) (by linarith)
    have e1 := neg_obj ext c1 m1 w par
    have e2 := neg_obj ext c2 m2 w par
    have e3 := neg_obj ext c1 m2 w par
    linarith
  · have hlo2m : min (m2/2) eps ≤ m2 := le_trans hlo2 hhi2
    have h := hmin2 (min (m2/2) eps) (le_refl _) hlo2m
    have hu1 := hu c1 (min (m2/2) eps) (le_of_lt hB)
    have hm1c1 : m1/2 ≤ c1 := by
      rcases min_cases (m1/2) eps with ⟨heq, hle⟩ | ⟨heq, hlt⟩
      · rw [heq] at hlo1; exact hlo1
      · rw [heq] at hlo1
        have hc1eps : c1 < eps := lt_of_lt_of_le hB (min_le_right _ _)
        linarith
    have hW1 := hW (m1 - c1) (m2 - min (m2/2) eps) (by
      have hmin2l := min_le_left (m2/2) eps
      linarith)
    have e1 := neg_obj ext c1 m1 w par
    have e2 := neg_obj ext c2 m2 w par
    have e3 := neg_obj ext (min (m2/2) eps) m2 w par
    linarith

/-- Claim C9: for a fixed permanent-income row ip, the stored value is
non-decreasing in the cash-on-hand index, provided grid_m is strictly
increasing below Nm, the utility capability is non-decreasing and midpoint
concave in consumption, the interpolated continuation value for row ip is
non-decreasing in end-of-period assets, and the search returns a minimizer
of the objective inside its bracket at every cash-on-hand grid point of
the row. -/
theorem solve_bellman_value_monotone (ext : Caps) (t : ℕ) (sol : Sol) (par : Par)
    (ip im1 im2 : ℕ)
    (hsorted : ∀ j, j < par.Nm → ∀ i, i < j →
      par.grid_m.getD i 0 < par.grid_m.getD j 0)
    (hu_mono : ∀ c1 c2, c1 ≤ c2 → ext.utility c1 par ≤ ext.utility c2 par)
    (hu_concave : ∀ c1 c2,
      (ext.utility c1 par + ext.utility c2 par) / 2 ≤ ext.utility ((c1 + c2) / 2) par)
    (hw_mono : ∀ a1 a2, a1 ≤ a2 →
      ext.interp_1d par.grid_a (sol.w.getD ip []) a1 ≤
        ext.interp_1d par.grid_a (sol.w.getD ip []) a2)
    (hopt : ∀ k, k < par.Nm →
      min (par.grid_m.getD k 0 / 2) eps ≤
          opt_bellman ext (min (par.grid_m.getD k 0 / 2) eps) (par.grid_m.getD k 0)
            par.tol (par.grid_m.getD k 0) (sol.w.getD ip []) par ∧
        opt_bellman ext (min (par.grid_m.getD k 0 / 2) eps) (par.grid_m.getD k 0)
            par.tol (par.grid_m.getD k 0) (sol.w.getD ip []) par ≤
          par.grid_m.getD k 0 ∧
        ∀ x, min (par.grid_m.getD k 0 / 2) eps ≤ x → x ≤ par.grid_m.getD k 0 →
          obj_bellman ext
              (opt_bellman ext (min (par.grid_m.getD k 0 / 2) eps) (par.grid_m.getD k 0)
                par.tol (par.grid_m.getD k 0) (sol.w.getD ip []) par)
              (par.grid_m.getD k 0) (sol.w.getD ip []) par ≤
            obj_bellman ext x (par.grid_m.getD k 0) (sol.w.getD ip []) par)
    (htv : t < sol.v.length) (hip : ip < par.Np)
    (h12 : im1 ≤ im2) (him2 : im2 < par.Nm) :
    getCell (solve_bellman ext t sol par).v t ip im1 ≤
      getCell (solve_bellman ext t sol par).v t ip im2 := by
  have him1 : im1 < par.Nm := Nat.lt_of_le_of_lt h12 him2
  obtain ⟨hlo1, hhi1, hmin1⟩ := hopt im1 him1
  obtain ⟨hlo2, hhi2, hmin2⟩ := hopt im2 him2
  have hm12 : par.grid_m.getD im1 0 ≤ par.grid_m.getD im2 0 := by
    rcases Nat.lt_or_ge im1 im2 with h | h
    · exact le_of_lt (hsorted im2 him2 im1 h)
    · have heq : im1 = im2 := Nat.le_antisymm h12 h
      rw [heq]
  rw [cellV ext t sol par ip im1 htv hip him1, cellV ext t sol par ip im2 htv hip him2,
    solve_cell_v, solve_cell_v, solve_cell_c, solve_cell_c]
  exact value_step_mono ext par (sol.w.getD ip []) _ _ _ _
    hu_mono hw_mono hm12 hlo1 hhi1 hlo2 hhi2 hmin2

theorem solve_bellman_value_monotone_witness :
    getCell (solve_bellman sampleCaps 0 sampleSol samplePar).v 0 0 0 ≤
      getCell (solve_bellman sampleCaps 0 sampleSol samplePar).v 0 0 1 := by
  apply solve_bellman_value_monotone
  · decide
  · exact fun c1 c2 h => h
  · intro c1 c2; exact le_refl _
  · exact fun a1 a2 h => h
  · intro k hk
    have hmpos : 0 < samplePar.grid_m.getD k 0 := by
      revert hk; revert k; decide
    refine ⟨le_refl _, le_trans (min_le_left _ _) (by linarith), ?_⟩
    intro x h1 h2
    have e : ∀ y : ℚ, obj_bellman sampleCaps y (samplePar.grid_m.getD k 0)
        (sampleSol.w.getD 0 []) samplePar = -(samplePar.grid_m.getD k 0) := by
      intro y
      show -(y + (samplePar.grid_m.getD k 0 - y)) = -(samplePar.grid_m.getD k 0)
      ring
    rw [e, e]
  · decide
  · decide
  · decide
  · decide
